import Mathlib

/-!
Verification of the paratrooper OTA update server core against its
natural-language specification.  The Go source is shallowly embedded:
Go strings are modelled as `String`/`List Char` (one `Char` per byte for
the byte-oriented routines, which only ever see ASCII or single bytes),
machine integers as `Nat`/`Int`, fallible calls as `Except`/`Option`,
and the SQL store as explicit lists of rows.
-/

/-- `db.UpdateStatus`: the `update_status` enum of the SQL schema. -/
inductive UpdateStatus where
  | empty
  | pending
  | processing
  | published
  | failed
  | canceled
deriving DecidableEq, Repr

/-- `db.UpdateProtocol`: the `update_protocol` enum of the SQL schema. -/
inductive UpdateProtocol where
  | expo
  | codepush
deriving DecidableEq, Repr

/-- `uuid.UUID` from github.com/google/uuid: a sequence of 16 bytes
(each byte a `Nat < 256`; the length invariant is maintained by the
producing functions). -/
structure UUID where
  bytes : List Nat
deriving DecidableEq, Repr

/-- Lower-case hex digit for a nibble, as in Go's `encodeHex`. -/
def hexDigit (n : Nat) : Char :=
  if n < 10 then Char.ofNat (48 + n) else Char.ofNat (87 + n)

/-- Two lower-case hex digits of one byte. -/
def byteHex (b : Nat) : List Char :=
  [hexDigit (b / 16 % 16), hexDigit (b % 16)]

/-- Helper for `uuidChars`: renders bytes starting at byte index `i`,
inserting the canonical hyphens after bytes 3, 5, 7 and 9. -/
def uuidCharsAux : Nat → List Nat → List Char
  | _, [] => []
  | i, b :: rest =>
      byteHex b ++ (if i = 3 ∨ i = 5 ∨ i = 7 ∨ i = 9 then ['-'] else [])
        ++ uuidCharsAux (i + 1) rest

/-- `UUID.String()`: canonical `xxxxxxxx-xxxx-xxxx-xxxx-xxxxxxxxxxxx`
lower-case rendering. -/
def uuidChars (u : UUID) : List Char := uuidCharsAux 0 u.bytes

def uuidString (u : UUID) : String := String.mk (uuidChars u)

/-- Go `strings.SplitN(s, "/", n)` for a single-character separator:
at most `n` substrings, the last one being the unsplit remainder
(`n = 0` yields the empty list, as in Go). -/
def splitFirst (sep : Char) : List Char → Option (List Char × List Char)
  | [] => none
  | c :: rest =>
      if c = sep then some ([], rest)
      else (splitFirst sep rest).map (fun p => (c :: p.1, p.2))

def goSplitN (sep : Char) : List Char → Nat → List (List Char)
  | _, 0 => []
  | s, 1 => [s]
  | s, Nat.succ n =>
      match splitFirst sep s with
      | none => [s]
      | some (pre, post) => pre :: goSplitN sep post n

theorem splitFirst_length_lt (sep : Char) :
    ∀ s pre post, splitFirst sep s = some (pre, post) → post.length < s.length := by
  intro s
  induction s with
  | nil => intro pre post h; simp [splitFirst] at h
  | cons c rest ih =>
      intro pre post h
      by_cases hc : c = sep
      · simp [splitFirst, hc] at h
        simp [← h.2]
      · simp only [splitFirst, hc, if_false, Option.map_eq_some'] at h
        obtain ⟨⟨p1, p2⟩, hp, he⟩ := h
        have := ih p1 p2 hp
        cases he
        simp only [List.length_cons]
        omega

/-- Go `strings.Split(s, "/")` (no limit) for a single-character
separator: every occurrence splits, `""` yields `[""]`. -/
def goSplitAll (sep : Char) : List Char → List (List Char)
  | [] => [[]]
  | c :: rest =>
      if c = sep then [] :: goSplitAll sep rest
      else
        match goSplitAll sep rest with
        | [] => [[c]]
        | p :: ps => (c :: p) :: ps

/-- Go `strings.CutPrefix(s, pre)` specialised to a single-character
marker, as used with the literal `"/"`. -/
def cutCharPre (pre : Char) (s : List Char) : List Char :=
  match s with
  | [] => []
  | c :: rest => if c = pre then rest else c :: rest

/-- `storage.AssetObjectKey(projectID, updateId, path)`:
`"{project_id}/{update_id}/{path}"`. -/
def AssetObjectKey (projectID updateId : UUID) (path : String) : String :=
  String.mk (uuidChars projectID ++ '/' :: (uuidChars updateId ++ '/' :: path.toList))

/-- `storage.ArchiveObjectKey(projectID, updateId, platform)`:
`"{project_id}/archives/{update_id}/{platform}.zip"`. -/
def ArchiveObjectKey (projectID updateId : UUID) (platform : String) : String :=
  String.mk (uuidChars projectID ++ '/' :: ("archives".toList
    ++ '/' :: (uuidChars updateId ++ '/' :: (platform.toList ++ ".zip".toList))))

/-- `storage.AssetObjectKeySegments`: `SplitN` on `/` into exactly three
segments, stripping one leading `/` from the third; anything else yields
three empty strings. -/
def AssetObjectKeySegments (assetObjectKey : String) : String × String × String :=
  match goSplitN '/' assetObjectKey.toList 3 with
  | [s0, s1, s2] => (String.mk s0, String.mk s1, String.mk (cutCharPre '/' s2))
  | _ => ("", "", "")

/-- Go `path.Split(str)`: splits after the final slash into
`(dir, file)`, `dir` keeping the trailing slash. -/
def goPathSplit (s : List Char) : List Char × List Char :=
  let file := (s.reverse.takeWhile (fun c => c ≠ '/')).reverse
  (s.take (s.length - file.length), file)

/-- Go `strings.Contains(s, sub)` as a substring test. -/
def containsSub (sub : List Char) : List Char → Bool
  | [] => decide (sub = [])
  | c :: rest => decide (sub = (c :: rest).take sub.length) || containsSub sub rest

/-- `storage.validateAssetPath`: the client path must be relative
(no leading `/`), its directory portion must not contain `..`, and its
basename must be non-empty. -/
def validateAssetPath (str : String) : Bool :=
  let s := str.toList
  let d := (goPathSplit s).1
  let f := (goPathSplit s).2
  !(decide (s.take 1 = ['/'])) && !(containsSub ['.', '.'] d) && !(decide (f = []))

/-! ### C9: AssetObjectKey / AssetObjectKeySegments round-trip -/

theorem hexDigit_ne_slash (n : Nat) (h : n < 16) : hexDigit n ≠ '/' := by
  have : ∀ r : Fin 16, hexDigit r.val ≠ '/' := by decide
  exact this ⟨n, h⟩

theorem slash_not_mem_byteHex (b : Nat) : '/' ∉ byteHex b := by
  simp only [byteHex, List.mem_cons, List.not_mem_nil, or_false]
  push_neg
  constructor
  · exact fun h => hexDigit_ne_slash _ (Nat.mod_lt _ (by norm_num)) h.symm
  · exact fun h => hexDigit_ne_slash _ (Nat.mod_lt _ (by norm_num)) h.symm

theorem slash_not_mem_uuidCharsAux (bs : List Nat) : ∀ i, '/' ∉ uuidCharsAux i bs := by
  induction bs with
  | nil => intro i; simp [uuidCharsAux]
  | cons b rest ih =>
      intro i
      simp only [uuidCharsAux, List.mem_append]
      push_neg
      refine ⟨⟨slash_not_mem_byteHex b, ?_⟩, ih (i + 1)⟩
      by_cases h : i = 3 ∨ i = 5 ∨ i = 7 ∨ i = 9 <;> simp [h]

theorem slash_not_mem_uuidChars (u : UUID) : '/' ∉ uuidChars u :=
  slash_not_mem_uuidCharsAux u.bytes 0

theorem splitFirst_append (a rest : List Char) (ha : '/' ∉ a) :
    splitFirst '/' (a ++ '/' :: rest) = some (a, rest) := by
  induction a with
  | nil => simp [splitFirst]
  | cons c tl ih =>
      simp only [List.mem_cons] at ha
      push_neg at ha
      simp [splitFirst, Ne.symm ha.1, ih ha.2]

theorem goSplitN_three (a b p : List Char) (ha : '/' ∉ a) (hb : '/' ∉ b) :
    goSplitN '/' (a ++ '/' :: (b ++ '/' :: p)) 3 = [a, b, p] := by
  show goSplitN '/' (a ++ '/' :: (b ++ '/' :: p)) (Nat.succ 2) = [a, b, p]
  rw [goSplitN, splitFirst_append a _ ha]
  · show a :: goSplitN '/' (b ++ '/' :: p) (Nat.succ 1) = [a, b, p]
    rw [goSplitN, splitFirst_append b _ hb]
    · rfl
    all_goals decide
  all_goals decide

theorem cutCharPre_eq_self (p : List Char) (h : p.take 1 ≠ ['/']) :
    cutCharPre '/' p = p := by
  cases p with
  | nil => rfl
  | cons c rest =>
      simp only [List.take_succ_cons, List.take_zero] at h
      simp only [cutCharPre, ite_eq_right_iff]
      intro hc
      exact absurd (by rw [hc]) h

/-- C9: for every asset path accepted by `validateAssetPath`, the key
built by `AssetObjectKey` round-trips through `AssetObjectKeySegments`:
the recovered segments are the project id, the update id and the path. -/
theorem assetObjectKey_roundtrip (pid uid : UUID) (path : String)
    (h : validateAssetPath path = true) :
    AssetObjectKeySegments (AssetObjectKey pid uid path)
      = (uuidString pid, uuidString uid, path) := by
  obtain ⟨l⟩ := path
  have hTake : l.take 1 ≠ ['/'] := by
    simp only [validateAssetPath, Bool.and_eq_true, Bool.not_eq_true',
      decide_eq_false_iff_not] at h
    exact h.1.1
  have key : AssetObjectKey pid uid (String.mk l)
      = String.mk (uuidChars pid ++ '/' :: (uuidChars uid ++ '/' :: l)) := rfl
  rw [key]
  unfold AssetObjectKeySegments
  have tl : (String.mk (uuidChars pid ++ '/' :: (uuidChars uid ++ '/' :: l))).toList
      = uuidChars pid ++ '/' :: (uuidChars uid ++ '/' :: l) := rfl
  rw [tl, goSplitN_three _ _ _ (slash_not_mem_uuidChars pid) (slash_not_mem_uuidChars uid)]
  show (String.mk (uuidChars pid), String.mk (uuidChars uid), String.mk (cutCharPre '/' l))
      = (uuidString pid, uuidString uid, String.mk l)
  rw [cutCharPre_eq_self l hTake]
  rfl

def exProjectID : UUID := ⟨[1,2,3,4, 5,6,7,8, 9,10,11,12, 13,14,15,16]⟩
def exUpdateID : UUID := ⟨[16,15,14,13, 12,11,10,9, 8,7,6,5, 4,3,2,1]⟩

/-- C9 witness: the round-trip at a concrete project id, update id and
a concrete valid asset path. -/
theorem assetObjectKey_roundtrip_witness :
    validateAssetPath "ios/assets/logo.png" = true ∧
      AssetObjectKeySegments (AssetObjectKey exProjectID exUpdateID "ios/assets/logo.png")
        = (uuidString exProjectID, uuidString exUpdateID, "ios/assets/logo.png") :=
  ⟨by decide, assetObjectKey_roundtrip exProjectID exUpdateID _ (by decide)⟩

/-! ### The update-resolution algorithm: `service.UpdateToInstall` -/

/-- `db.Update`: one row of the `updates` table. -/
structure Update where
  id : UUID
  projectID : UUID
  runtimeVersion : String
  channel : String
  message : Option String
  status : UpdateStatus
  createdAt : Nat
deriving DecidableEq, Repr

/-- `db.GetLatestPublishedAndCanceledUpdatesRow`: an update joined to the
`content_sha256` of its archive-or-launch asset for the requested
platform (`none` models a SQL NULL, i.e. `pgtype.Text` with
`Valid = false`). -/
structure ResolvedUpdateRow where
  update : Update
  contentSha256 : Option String
deriving DecidableEq, Repr

/-- `update.CurrentUpdateFilter`: `ID` is supplied by Expo, `SHA256` by
CodePush. -/
structure CurrentUpdateFilter where
  id : Option UUID
  sha256 : Option String
deriving DecidableEq, Repr

/-- The `isCurrentUpdate` closure inside `service.UpdateToInstall`: the
row matches when the filter id equals the row's update id, or the filter
sha256 equals the row's non-NULL `content_sha256`. -/
def isCurrentUpdate (f : CurrentUpdateFilter) (u : ResolvedUpdateRow) : Bool :=
  (match f.id with
    | some i => decide (u.update.id = i)
    | none => false)
  || (match f.sha256, u.contentSha256 with
    | some s, some c => decide (c = s)
    | _, _ => false)

/-- `service.UpdateToInstall`, with the result of the SQL query
`GetLatestPublishedAndCanceledUpdates` (at most one `published` and one
`canceled` row, most recent first per status) abstracted as the `rows`
argument.  Mirrors the branch structure of the Go function. -/
def UpdateToInstall (f : CurrentUpdateFilter) (rows : List ResolvedUpdateRow) :
    Except String (Option ResolvedUpdateRow) :=
  if rows.length > 2 then .error "should return at most 2 rows"
  else match rows with
  | [r0, r1] =>
      if r0.update.status = .published then
        if isCurrentUpdate f r0 then .ok none else .ok (some r0)
      else if r0.update.status = .canceled ∧ r1.update.status = .published
          ∧ isCurrentUpdate f r1 = false then
        .ok (some r1)
      else .ok none
  | [r0] =>
      -- current update has been rolled back
      if r0.update.status = .canceled ∧ isCurrentUpdate f r0 = true then .ok (some r0)
      -- there's a new published update
      else if r0.update.status = .published ∧ isCurrentUpdate f r0 = false then .ok (some r0)
      -- published but already installed, or new but canceled
      else .ok none
  | _ => .ok none

/-- C1: a row returned by `UpdateToInstall` is never simultaneously in
status `published` and current with respect to the filter — a device is
never instructed to install the update it already runs. -/
theorem updateToInstall_never_current_published
    (f : CurrentUpdateFilter) (rows : List ResolvedUpdateRow) (r : ResolvedUpdateRow)
    (h : UpdateToInstall f rows = .ok (some r)) :
    ¬(r.update.status = .published ∧ isCurrentUpdate f r = true) := by
  unfold UpdateToInstall at h
  rintro ⟨hpub, hcur⟩
  match rows with
  | [] => simp at h
  | [r0] =>
      simp only [List.length_cons, List.length_nil] at h
      norm_num at h
      split_ifs at h with h1 h2
      · cases h; rw [h1.2] at hcur; exact absurd (h1.1.symm.trans hpub) (by decide)
      · cases h; rw [hcur] at h2; exact absurd h2.2 (by simp)
      · simp at h
  | [r0, r1] =>
      simp only [List.length_cons, List.length_nil] at h
      norm_num at h
      split_ifs at h with h1 h2 h3
      · simp at h
      · cases h; rw [hcur] at h2; exact h2 rfl
      · cases h; rw [hcur] at h3; exact absurd h3.2.2 (by simp)
      · simp at h
  | r0 :: r1 :: r2 :: rest =>
      simp only [List.length_cons] at h
      norm_num at h
      exact absurd h (by simp [Nat.succ_le_succ, Nat.le_add_left])

def exRowPub : ResolvedUpdateRow :=
  { update := { id := exUpdateID, projectID := exProjectID, runtimeVersion := "1.0.0",
                channel := "production", message := none, status := .published, createdAt := 0 },
    contentSha256 := some "sha256" }

def exRowCanceled : ResolvedUpdateRow :=
  { update := { id := exUpdateID, projectID := exProjectID, runtimeVersion := "1.0.0",
                channel := "production", message := none, status := .canceled, createdAt := 0 },
    contentSha256 := some "sha256" }

/-- C1 witness: with an empty filter and one published row the resolver
returns that row, and the returned row is not a current published one. -/
theorem updateToInstall_never_current_published_witness :
    UpdateToInstall ⟨none, none⟩ [exRowPub] = .ok (some exRowPub) ∧
      ¬(exRowPub.update.status = .published
          ∧ isCurrentUpdate ⟨none, none⟩ exRowPub = true) :=
  ⟨by rfl, updateToInstall_never_current_published ⟨none, none⟩ [exRowPub] exRowPub (by rfl)⟩

/-- C2: with exactly one row from the query, `UpdateToInstall` returns
the row precisely when it is canceled-and-current (rollback to embedded)
or published-and-not-current, and `null` in the two remaining cases. -/
theorem updateToInstall_single_row (f : CurrentUpdateFilter) (r : ResolvedUpdateRow) :
    UpdateToInstall f [r] = .ok
      (if (r.update.status = .canceled ∧ isCurrentUpdate f r = true)
          ∨ (r.update.status = .published ∧ isCurrentUpdate f r = false)
        then some r else none) := by
  unfold UpdateToInstall
  norm_num
  split_ifs with h1 h2 h3 h4 h5 <;> first | rfl | tauto

/-! ### Update service state changes: RollbackUpdate, CommitUpdate -/

/-- Error values of the update service (`errors.New` sentinels plus
propagated query errors). -/
inductive ServiceError where
  | updateNotFound
  | updateNotPublished
  | queryError (msg : String)
deriving DecidableEq, Repr

/-- The SQL query `SetUpdateStatus`: `UPDATE updates SET status = $2
WHERE id = $1 RETURNING *` — no state-machine guard; `:one` makes an
absent id surface as `pgx.ErrNoRows`.  Returns the updated row and the
new table. -/
def setUpdateStatusQuery (table : List Update) (updateID : UUID) (status : UpdateStatus) :
    Except String (Update × List Update) :=
  match table.find? (fun u => decide (u.id = updateID)) with
  | none => .error "no rows in result set"
  | some u =>
      .ok ({ u with status := status },
        table.map (fun v => if v.id = updateID then { v with status := status } else v))

/-- The SQL query `GetUpdateByID`: lookup scoped to both the update id
and the project id. -/
def getUpdateByIDQuery (table : List Update) (updateID projectID : UUID) : Option Update :=
  table.find? (fun u => decide (u.id = updateID) && decide (u.projectID = projectID))

/-- `service.RollbackUpdate`: load the update scoped to the project; if
missing → `ErrUpdateNotFound`; if not `published` → `ErrUpdateNotPublished`
(table untouched); else set the status to `canceled`. -/
def RollbackUpdate (table : List Update) (projectID updateID : UUID) :
    Except ServiceError (List Update) :=
  match getUpdateByIDQuery table updateID projectID with
  | none => .error .updateNotFound
  | some u =>
      if u.status ≠ .published then .error .updateNotPublished
      else
        match setUpdateStatusQuery table updateID .canceled with
        | .error e => .error (.queryError e)
        | .ok (_, table2) => .ok table2

/-- `service.CommitUpdate`: set the status to `pending` via the
unguarded `SetUpdateStatus` query, then publish a `ProcessUpdate`
message (the queue is modelled as the list of published update ids). -/
def CommitUpdate (table : List Update) (queue : List UUID) (updateID : UUID) :
    Except ServiceError (List Update × List UUID) :=
  match setUpdateStatusQuery table updateID .pending with
  | .error e => .error (.queryError e)
  | .ok (row, table2) => .ok (table2, queue ++ [row.id])

/-- C8: `RollbackUpdate` returns `ErrUpdateNotFound` when the update is
absent under the project, `ErrUpdateNotPublished` when its status is not
`published` (in particular on an already-canceled update, leaving the
table untouched), and otherwise sets exactly that update's status to
`canceled`; an `ok` result implies the update was `published` before, so
`canceled` is only ever reached from `published`. -/
theorem rollbackUpdate_cases (table : List Update) (pid uid : UUID) :
    (getUpdateByIDQuery table uid pid = none →
      RollbackUpdate table pid uid = .error .updateNotFound)
    ∧ (∀ u, getUpdateByIDQuery table uid pid = some u → u.status ≠ .published →
        RollbackUpdate table pid uid = .error .updateNotPublished)
    ∧ (∀ u, getUpdateByIDQuery table uid pid = some u → u.status = .published →
        RollbackUpdate table pid uid
          = .ok (table.map (fun v => if v.id = uid then { v with status := .canceled } else v)))
    ∧ (∀ table2, RollbackUpdate table pid uid = .ok table2 →
        ∃ u, getUpdateByIDQuery table uid pid = some u ∧ u.status = .published) := by
  refine ⟨?_, ?_, ?_, ?_⟩
  · intro h
    unfold RollbackUpdate
    rw [h]
  · intro u hu hs
    unfold RollbackUpdate
    rw [hu]
    simp [hs]
  · intro u hu hs
    have hmem : u ∈ table := List.mem_of_find?_eq_some hu
    have hid : u.id = uid := by
      have := List.find?_some hu
      simp only [Bool.and_eq_true, decide_eq_true_eq] at this
      exact this.1
    unfold RollbackUpdate
    rw [hu]
    simp only [hs, ne_eq, not_true_eq_false, if_false]
    have hfind : ∃ w, table.find? (fun v => decide (v.id = uid)) = some w := by
      have : (table.find? (fun v => decide (v.id = uid))).isSome := by
        apply List.find?_isSome.mpr
        exact ⟨u, hmem, by simp [hid]⟩
      exact Option.isSome_iff_exists.mp this
    obtain ⟨w, hw⟩ := hfind
    unfold setUpdateStatusQuery
    rw [hw]
  · intro table2 h
    unfold RollbackUpdate at h
    match hq : getUpdateByIDQuery table uid pid with
    | none => rw [hq] at h; simp at h
    | some u =>
        rw [hq] at h
        refine ⟨u, rfl, ?_⟩
        by_contra hns
        simp [hns] at h

/-- C10: `CommitUpdate` sets the status to `pending` unconditionally —
whatever status the update currently has — because `SetUpdateStatus`
carries no state-machine guard; it then enqueues one processing message
for the update. -/
theorem commitUpdate_sets_pending_unconditionally
    (table : List Update) (queue : List UUID) (uid : UUID) (u : Update)
    (hu : table.find? (fun v => decide (v.id = uid)) = some u) :
    CommitUpdate table queue uid
      = .ok (table.map (fun v => if v.id = uid then { v with status := .pending } else v),
          queue ++ [uid]) := by
  have hid : u.id = uid := by
    have := List.find?_some hu
    simpa using this
  unfold CommitUpdate setUpdateStatusQuery
  rw [hu]
  simp [hid]

/-- C8 witness: rolling back an already-canceled update returns
`ErrUpdateNotPublished`. -/
theorem rollbackUpdate_cases_witness :
    RollbackUpdate [exRowCanceled.update] exProjectID exUpdateID
      = .error .updateNotPublished :=
  (rollbackUpdate_cases [exRowCanceled.update] exProjectID exUpdateID).2.1
    exRowCanceled.update (by rfl) (by decide)

/-- C10 witness: committing an already-published update still flips its
status to `pending`. -/
theorem commitUpdate_sets_pending_witness :
    CommitUpdate [exRowPub.update] [] exUpdateID
      = .ok ([{ exRowPub.update with status := .pending }], [exUpdateID]) := by
  have h := commitUpdate_sets_pending_unconditionally
    [exRowPub.update] [] exUpdateID exRowPub.update (by rfl)
  simpa using h

/-! ### SHA-256 (crypto/sha256) over byte lists, words as `Nat mod 2^32` -/

def w32 (n : Nat) : Nat := n % 4294967296

def rotr32 (x n : Nat) : Nat := w32 ((x >>> n) ||| (x <<< (32 - n)))

def not32 (x : Nat) : Nat := Nat.xor x 4294967295

def xor3 (a b c : Nat) : Nat := Nat.xor (Nat.xor a b) c

def shaCh (x y z : Nat) : Nat := Nat.xor (Nat.land x y) (Nat.land (not32 x) z)

def shaMaj (x y z : Nat) : Nat := xor3 (Nat.land x y) (Nat.land x z) (Nat.land y z)

def bigSigma0 (x : Nat) : Nat := xor3 (rotr32 x 2) (rotr32 x 13) (rotr32 x 22)

def bigSigma1 (x : Nat) : Nat := xor3 (rotr32 x 6) (rotr32 x 11) (rotr32 x 25)

def smallSigma0 (x : Nat) : Nat := xor3 (rotr32 x 7) (rotr32 x 18) (x >>> 3)

def smallSigma1 (x : Nat) : Nat := xor3 (rotr32 x 17) (rotr32 x 19) (x >>> 10)

def shaK : List Nat :=
  [1116352408, 1899447441, 3049323471, 3921009573, 961987163, 1508970993,
   2453635748, 2870763221, 3624381080, 310598401, 607225278, 1426881987,
   1925078388, 2162078206, 2614888103, 3248222580, 3835390401, 4022224774,
   264347078, 604807628, 770255983, 1249150122, 1555081692, 1996064986,
   2554220882, 2821834349, 2952996808, 3210313671, 3336571891, 3584528711,
   113926993, 338241895, 666307205, 773529912, 1294757372, 1396182291,
   1695183700, 1986661051, 2177026350, 2456956037, 2730485921, 2820302411,
   3259730800, 3345764771, 3516065817, 3600352804, 4094571909, 275423344,
   430227734, 506948616, 659060556, 883997877, 958139571, 1322822218,
   1537002063, 1747873779, 1955562222, 2024104815, 2227730452, 2361852424,
   2428436474, 2756734187, 3204031479, 3329325298]

def shaH0 : List Nat :=
  [1779033703, 3144134277, 1013904242, 2773480762,
   1359893119, 2600822924, 528734635, 1541459225]

/-- Big-endian 8-byte rendering of the bit length. -/
def be64 (n : Nat) : List Nat :=
  [n >>> 56 % 256, n >>> 48 % 256, n >>> 40 % 256, n >>> 32 % 256,
   n >>> 24 % 256, n >>> 16 % 256, n >>> 8 % 256, n % 256]

def be32 (n : Nat) : List Nat :=
  [n >>> 24 % 256, n >>> 16 % 256, n >>> 8 % 256, n % 256]

/-- Merkle–Damgård padding: `0x80`, zeros to 56 mod 64, 64-bit length. -/
def sha256Pad (msg : List Nat) : List Nat :=
  let zeros := (119 - msg.length % 64) % 64
  msg ++ 0x80 :: (List.replicate zeros 0 ++ be64 (8 * msg.length))

def chunk64 : List Nat → List (List Nat)
  | [] => []
  | c :: rest =>
      (c :: rest).take 64 :: chunk64 ((c :: rest).drop 64)
termination_by l => l.length
decreasing_by simp only [List.length_drop, List.length_cons]; omega

/-- Big-endian 32-bit words of a 64-byte block. -/
def beWords : List Nat → List Nat
  | a :: b :: c :: d :: rest => (((a * 256 + b) * 256 + c) * 256 + d) :: beWords rest
  | _ => []

/-- Message-schedule extension: appends `fuel` further words. -/
def extendW (w : List Nat) : Nat → List Nat
  | 0 => w
  | Nat.succ k =>
      let t := w.length
      extendW (w ++ [w32 (smallSigma1 (w.getD (t - 2) 0) + w.getD (t - 7) 0
        + smallSigma0 (w.getD (t - 15) 0) + w.getD (t - 16) 0)]) k

/-- One compression round; the state is the word list `[a,b,c,d,e,f,g,h]`. -/
def shaRound (st : List Nat) (kw : Nat × Nat) : List Nat :=
  let a := st.getD 0 0
  let b := st.getD 1 0
  let c := st.getD 2 0
  let d := st.getD 3 0
  let e := st.getD 4 0
  let f := st.getD 5 0
  let g := st.getD 6 0
  let h := st.getD 7 0
  let t1 := w32 (h + bigSigma1 e + shaCh e f g + kw.1 + kw.2)
  let t2 := w32 (bigSigma0 a + shaMaj a b c)
  [w32 (t1 + t2), a, b, c, w32 (d + t1), e, f, g]

def shaProcessBlock (h : List Nat) (block : List Nat) : List Nat :=
  let w := extendW (beWords block) 48
  let st := (shaK.zip w).foldl shaRound h
  (h.zip st).map (fun p => w32 (p.1 + p.2))

/-- `sha256.Sum256`: digest bytes of a byte-list message. -/
def sha256Bytes (msg : List Nat) : List Nat :=
  (((chunk64 (sha256Pad msg)).foldl shaProcessBlock shaH0).map be32).flatten

/-- Go's `fmt.Sprintf("%x", bytes)`: lower-case hex of a byte list. -/
def hexOfBytes (bs : List Nat) : List Char := (bs.map byteHex).flatten

/-! ### Go `encoding/json` marshалling of a `[]string` (HTML-escaping on) -/

/-- Escape of one character inside a Go JSON string literal
(`encodeState.string` with `escapeHTML = true`). -/
def goJsonEscapeChar (c : Char) : List Char :=
  if c.toNat < 128 then
    if c = '"' then ['\\', '"']
    else if c = '\\' then ['\\', '\\']
    else if c = Char.ofNat 10 then ['\\', 'n']
    else if c = Char.ofNat 13 then ['\\', 'r']
    else if c = Char.ofNat 9 then ['\\', 't']
    else if c.toNat < 32 ∨ c = '<' ∨ c = '>' ∨ c = '&' then
      '\\' :: 'u' :: '0' :: '0' :: byteHex c.toNat
    else [c]
  else if c.toNat = 0x2028 then ['\\', 'u', '2', '0', '2', '8']
  else if c.toNat = 0x2029 then ['\\', 'u', '2', '0', '2', '9']
  else [c]

def goJsonQuote (s : String) : List Char :=
  '"' :: ((s.toList.map goJsonEscapeChar).flatten ++ ['"'])

/-- `json.Marshal` of a string slice. -/
def goJsonMarshalStrings (tokens : List String) : List Char :=
  '[' :: (List.intercalate [','] (tokens.map goJsonQuote) ++ [']'])

/-- UTF-8 bytes of one character. -/
def utf8Bytes (c : Char) : List Nat :=
  let n := c.toNat
  if n < 0x80 then [n]
  else if n < 0x800 then [0xC0 + n / 64, 0x80 + n % 64]
  else if n < 0x10000 then [0xE0 + n / 4096, 0x80 + n / 64 % 64, 0x80 + n % 64]
  else [0xF0 + n / 262144, 0x80 + n / 4096 % 64, 0x80 + n / 64 % 64, 0x80 + n % 64]

def utf8Encode (l : List Char) : List Nat := (l.map utf8Bytes).flatten

/-! ### `calculateSHA256ForArchive` (the CodePush package hash) -/

/-- `db.UpdateAsset`: one row of the `update_assets` table. -/
structure UpdateAsset where
  id : UUID
  updateID : UUID
  storageObjectPath : String
  contentType : String
  extension : String
  contentMd5 : String
  contentSha256 : String
  isLaunchAsset : Bool
  isArchive : Bool
  platform : String
  contentLength : Int
deriving DecidableEq, Repr

/-- The `"{path_tail}:{content_sha256}"` token of one asset. -/
def archiveToken (asset : UpdateAsset) : String :=
  String.mk ((AssetObjectKeySegments asset.storageObjectPath).2.2.toList
    ++ ':' :: asset.contentSha256.toList)

def stringLe (a b : String) : Bool := decide (a ≤ b)

/-- `calculateSHA256ForArchive`: tokens sorted ascending
(`slices.Sort`), JSON-encoded as a string array, SHA-256, lower-case
hex. -/
def calculateSHA256ForArchive (assets : List UpdateAsset) : String :=
  let tokens := assets.map archiveToken
  let sorted := tokens.mergeSort stringLe
  String.mk (hexOfBytes (sha256Bytes (utf8Encode (goJsonMarshalStrings sorted))))

theorem mergeSort_stringLe_eq_of_perm (l1 l2 : List String) (h : l1.Perm l2) :
    l1.mergeSort stringLe = l2.mergeSort stringLe := by
  have hperm : (l1.mergeSort stringLe).Perm (l2.mergeSort stringLe) :=
    ((l1.mergeSort_perm stringLe).trans h).trans (l2.mergeSort_perm stringLe).symm
  have hsorted : ∀ l : List String, List.Sorted (· ≤ ·) (l.mergeSort stringLe) := by
    intro l
    have htr : ∀ a b c : String, stringLe a b = true → stringLe b c = true →
        stringLe a c = true := by
      intro a b c hab hbc
      simp only [stringLe, decide_eq_true_eq] at *
      exact le_trans hab hbc
    have hto : ∀ a b : String, (stringLe a b || stringLe b a) = true := by
      intro a b
      simp only [stringLe, Bool.or_eq_true, decide_eq_true_eq]
      exact le_total a b
    have := List.sorted_mergeSort htr hto l
    exact this.imp (fun {a b} hab => by
      simpa only [stringLe, decide_eq_true_eq] using hab)
  exact List.eq_of_perm_of_sorted hperm (hsorted l1) (hsorted l2)

/-- C4: `ArchiveHash` is order-insensitive — permuting the asset list
leaves the hash unchanged — and it is exactly
`hex(sha256(utf8(json of the ascending-sorted
"path_tail:content_sha256" tokens)))`. -/
theorem archiveHash_perm_invariant :
    (∀ a1 a2 : List UpdateAsset, a1.Perm a2 →
        calculateSHA256ForArchive a1 = calculateSHA256ForArchive a2)
    ∧ (∀ assets : List UpdateAsset,
        calculateSHA256ForArchive assets
          = String.mk (hexOfBytes (sha256Bytes (utf8Encode (goJsonMarshalStrings
              ((assets.map archiveToken).mergeSort stringLe)))))) := by
  constructor
  · intro a1 a2 h
    show String.mk (hexOfBytes (sha256Bytes (utf8Encode (goJsonMarshalStrings
        ((a1.map archiveToken).mergeSort stringLe)))))
      = String.mk (hexOfBytes (sha256Bytes (utf8Encode (goJsonMarshalStrings
        ((a2.map archiveToken).mergeSort stringLe)))))
    rw [mergeSort_stringLe_eq_of_perm _ _ (h.map archiveToken)]
  · intro assets
    rfl

def exAssetA : UpdateAsset :=
  { id := exUpdateID, updateID := exUpdateID,
    storageObjectPath := AssetObjectKey exProjectID exUpdateID "ios/assets/logo.png",
    contentType := "image/png", extension := ".png",
    contentMd5 := "d41d8cd98f00b204e9800998ecf8427e",
    contentSha256 := "e3b0c44298fc1c149afbf4c8996fb92427ae41e4649b934ca495991b7852b855",
    isLaunchAsset := false, isArchive := false, platform := "ios", contentLength := 10 }

def exAssetB : UpdateAsset :=
  { id := exProjectID, updateID := exUpdateID,
    storageObjectPath := AssetObjectKey exProjectID exUpdateID "ios/main.jsbundle",
    contentType := "application/javascript", extension := ".bundle",
    contentMd5 := "d41d8cd98f00b204e9800998ecf8427e",
    contentSha256 := "ba7816bf8f01cfea414140de5dae2223b00361a396177a9cb410ff61f20015ad",
    isLaunchAsset := true, isArchive := false, platform := "ios", contentLength := 20 }

/-- C4 witness: swapping two concrete assets is a permutation and the
hash is unchanged. -/
theorem archiveHash_perm_invariant_witness :
    ([exAssetA, exAssetB] : List UpdateAsset).Perm [exAssetB, exAssetA]
      ∧ calculateSHA256ForArchive [exAssetA, exAssetB]
          = calculateSHA256ForArchive [exAssetB, exAssetA] :=
  ⟨by decide, archiveHash_perm_invariant.1 [exAssetA, exAssetB] [exAssetB, exAssetA] (by decide)⟩

/-! ### Storage facade: `UploadURLs` and the 100 MiB gate -/

/-- Go `path.Clean` (equivalently `filepath.Clean∘ToSlash` on
slash-separated paths): drop empty and `.` components, resolve `..`
against the stack (kept when relative and nothing to pop, dropped at the
root), `"."` for an empty relative result. -/
def goPathClean (s : String) : String :=
  let rooted := s.toList.take 1 = ['/']
  let stack := (goSplitAll '/' s.toList).foldl
    (fun st c =>
      if c = [] ∨ c = ['.'] then st
      else if c = ['.', '.'] then
        if st ≠ [] ∧ st.getLast? ≠ some ['.', '.'] then st.dropLast
        else if rooted then st
        else st ++ [['.', '.']]
      else st ++ [c]) []
  let joined := List.intercalate ['/'] stack
  if rooted then String.mk ('/' :: joined)
  else if joined = [] then "." else String.mk joined

/-- `api.StorageObject`: one entry of `file_metadata` in PrepareUpdate. -/
structure StorageObject where
  path : String
  contentLength : Int
  contentType : String
  md5Hash : String
deriving DecidableEq, Repr

/-- `api.StorageObjectPathWithURL`. -/
structure StorageObjectPathWithURL where
  path : String
  url : String
deriving DecidableEq, Repr

def MaxUpdateTotalSizeMB : Nat := 100

/-- `storage.ErrUpdateTooLarge`. -/
def ErrUpdateTooLarge : String := s!"max update size is {MaxUpdateTotalSizeMB}MB"

/-- The per-object loop of `Storage.UploadURLs`: clean the path, build
the asset key, mint a signed PUT URL via the bucket (abstracted as
`signedURL : key → contentType → Except`), stop at the first failure. -/
def uploadURLsLoop (signedURL : String → String → Except String String)
    (projectID updateID : UUID) : List StorageObject →
    Except String (List StorageObjectPathWithURL)
  | [] => .ok []
  | o :: rest =>
      match signedURL (AssetObjectKey projectID updateID (goPathClean o.path)) o.contentType with
      | .error e => .error ("failed to get upload URL: " ++ e)
      | .ok url =>
          (uploadURLsLoop signedURL projectID updateID rest).map
            (fun urls => { path := o.path, url := url } :: urls)

/-- `Storage.UploadURLs`: reject when the summed `content_length`
exceeds 100 MiB, else one signed PUT URL per object. -/
def UploadURLs (signedURL : String → String → Except String String)
    (projectID updateID : UUID) (objects : List StorageObject) :
    Except String (List StorageObjectPathWithURL) :=
  let totalSize : Int := (objects.map (fun o => o.contentLength)).sum
  if totalSize > (MaxUpdateTotalSizeMB : Int) * 1024 * 1024 then .error ErrUpdateTooLarge
  else uploadURLsLoop signedURL projectID updateID objects

/-- C7: `UploadURLs` fails with `ErrUpdateTooLarge` (text
`"max update size is 100MB"`) exactly when the objects' summed
`content_length` exceeds 100 MiB; within the limit, provided the bucket
signs every request, it yields exactly one URL per object, in order. -/
theorem uploadURLs_size_gate (signedURL : String → String → Except String String)
    (pid uid : UUID) (objects : List StorageObject) :
    ((objects.map (fun o => o.contentLength)).sum > (100 : Int) * 1024 * 1024 →
        UploadURLs signedURL pid uid objects = .error "max update size is 100MB")
    ∧ ((objects.map (fun o => o.contentLength)).sum ≤ (100 : Int) * 1024 * 1024 →
        (∀ o ∈ objects, ∃ u,
          signedURL (AssetObjectKey pid uid (goPathClean o.path)) o.contentType = .ok u) →
        ∃ urls, UploadURLs signedURL pid uid objects = .ok urls
          ∧ urls.map (fun r => r.path) = objects.map (fun o => o.path)) := by
  constructor
  · intro h
    unfold UploadURLs
    rw [if_pos (by exact_mod_cast h)]
    rfl
  · intro hsize hok
    have hloop : ∀ l : List StorageObject,
        (∀ o ∈ l, ∃ u,
          signedURL (AssetObjectKey pid uid (goPathClean o.path)) o.contentType = .ok u) →
        ∃ urls, uploadURLsLoop signedURL pid uid l = .ok urls
          ∧ urls.map (fun r => r.path) = l.map (fun o => o.path) := by
      intro l
      induction l with
      | nil => intro _; exact ⟨[], rfl, rfl⟩
      | cons o rest ih =>
          intro hall
          obtain ⟨u, hu⟩ := hall o (List.mem_cons_self o rest)
          obtain ⟨urls, hurls, hpaths⟩ := ih (fun x hx => hall x (List.mem_cons_of_mem o hx))
          refine ⟨{ path := o.path, url := u } :: urls, ?_, ?_⟩
          · unfold uploadURLsLoop
            rw [hu, hurls]
            rfl
          · simp [hpaths]
    obtain ⟨urls, hurls, hpaths⟩ := hloop objects hok
    refine ⟨urls, ?_, hpaths⟩
    unfold UploadURLs
    rw [if_neg (by exact_mod_cast not_lt.mpr hsize)]
    exact hurls

def exSigner : String → String → Except String String :=
  fun key _ => .ok ("https://signed.example/" ++ key)

def exObjSmallA : StorageObject :=
  { path := "ios/a.png", contentLength := 1000, contentType := "image/png", md5Hash := "" }

def exObjSmallB : StorageObject :=
  { path := "ios/b.png", contentLength := 2000, contentType := "image/png", md5Hash := "" }

def exObjBigA : StorageObject :=
  { path := "ios/big_a.bin", contentLength := 52428800, contentType := "application/octet-stream",
    md5Hash := "" }

def exObjBigB : StorageObject :=
  { path := "ios/big_b.bin", contentLength := 53477376, contentType := "application/octet-stream",
    md5Hash := "" }

/-- C7 witness: two small objects get two URLs; two objects totaling
101 MiB are rejected with the literal error text. -/
theorem uploadURLs_size_gate_witness :
    (∃ urls, UploadURLs exSigner exProjectID exUpdateID [exObjSmallA, exObjSmallB] = .ok urls
        ∧ urls.map (fun r => r.path)
            = ([exObjSmallA, exObjSmallB].map (fun o => o.path)))
    ∧ UploadURLs exSigner exProjectID exUpdateID [exObjBigA, exObjBigB]
        = .error "max update size is 100MB" :=
  ⟨(uploadURLs_size_gate exSigner exProjectID exUpdateID [exObjSmallA, exObjSmallB]).2
      (by decide) (by intro o ho; fin_cases ho <;> exact ⟨_, rfl⟩),
   (uploadURLs_size_gate exSigner exProjectID exUpdateID [exObjBigA, exObjBigB]).1 (by decide)⟩

/-! ### CodePush: `ParseDeploymentKey` -/

/-- Hex digit value (`0-9a-fA-F`), as accepted by Go's `xtob`/`ishex`. -/
def hexVal (c : Char) : Option Nat :=
  let n := c.toNat
  if 48 ≤ n ∧ n ≤ 57 then some (n - 48)
  else if 97 ≤ n ∧ n ≤ 102 then some (n - 87)
  else if 65 ≤ n ∧ n ≤ 70 then some (n - 55)
  else none

/-- `xtob`: byte value of two hex characters. -/
def xtob (a b : Char) : Option Nat := do
  pure ((← hexVal a) * 16 + (← hexVal b))

/-- `net/url.QueryUnescape`: `%XX` escapes decoded (error when
malformed), `+` decoded to space, everything else copied. -/
def queryUnescape : List Char → Except String (List Char)
  | [] => .ok []
  | '%' :: rest =>
      match rest with
      | a :: b :: rest2 =>
          match xtob a b with
          | some n => (queryUnescape rest2).map (fun t => Char.ofNat n :: t)
          | none => .error "invalid URL escape"
      | _ => .error "invalid URL escape"
  | '+' :: rest => (queryUnescape rest).map (fun t => ' ' :: t)
  | c :: rest => (queryUnescape rest).map (fun t => c :: t)

/-- ASCII case folding, sufficient for `strings.EqualFold` against the
all-ASCII pattern `"urn:uuid:"`. -/
def asciiLower (c : Char) : Char :=
  if 65 ≤ c.toNat ∧ c.toNat ≤ 90 then Char.ofNat (c.toNat + 32) else c

def equalFold (a b : List Char) : Bool :=
  decide (a.map asciiLower = b.map asciiLower)

/-- The canonical 36-character branch of `uuid.Parse`: hyphens at
positions 8, 13, 18, 23 and sixteen hex byte pairs at the fixed
offsets.  Only positions 0–35 are inspected, as in the Go source. -/
def uuidParse36 (s : List Char) : Option (List Nat) :=
  if s.getD 8 ' ' = '-' ∧ s.getD 13 ' ' = '-' ∧ s.getD 18 ' ' = '-' ∧ s.getD 23 ' ' = '-' then
    [0, 2, 4, 6, 9, 11, 14, 16, 19, 21, 24, 26, 28, 30, 32, 34].mapM
      (fun x => xtob (s.getD x ' ') (s.getD (x + 1) ' '))
  else none

/-- The 32-character no-hyphen branch of `uuid.Parse`. -/
def uuidParse32 (s : List Char) : Option (List Nat) :=
  (List.range 16).mapM (fun i => xtob (s.getD (2 * i) ' ') (s.getD (2 * i + 1) ' '))

/-- `uuid.Parse` (github.com/google/uuid): accepts the 36-character
canonical form, `urn:uuid:` + 36, `{` + 36 (the Go code only drops the
first character) and the 32-character hex form. -/
def uuidParse (s : List Char) : Except String UUID :=
  if s.length = 36 then
    match uuidParse36 s with
    | some bs => .ok ⟨bs⟩
    | none => .error "invalid UUID format"
  else if s.length = 36 + 9 then
    if equalFold (s.take 9) "urn:uuid:".toList then
      match uuidParse36 (s.drop 9) with
      | some bs => .ok ⟨bs⟩
      | none => .error "invalid UUID format"
    else .error "invalid urn prefix"
  else if s.length = 36 + 2 then
    match uuidParse36 (s.drop 1) with
    | some bs => .ok ⟨bs⟩
    | none => .error "invalid UUID format"
  else if s.length = 32 then
    match uuidParse32 s with
    | some bs => .ok ⟨bs⟩
    | none => .error "invalid UUID format"
  else .error "invalid UUID length"

/-- `codepush.ParseDeploymentKey`: URL-decode, `SplitN` on `/` with
limit 3, require three parts, parse the first as a UUID. -/
def ParseDeploymentKey (deploymentKey : String) : Except String (UUID × String × String) :=
  match queryUnescape deploymentKey.toList with
  | .error e => .error ("failed to decode deployment key: " ++ e)
  | .ok decoded =>
      match goSplitN '/' decoded 3 with
      | [p0, p1, p2] =>
          match uuidParse p0 with
          | .error e => .error ("invalid project id: " ++ e)
          | .ok pid => .ok (pid, String.mk p1, String.mk p2)
      | _ => .error "invalid deployment key format, expected projectID/platform/channel"

/-- Joining components with a separator (inverse of `goSplitAll`). -/
def joinSep (sep : Char) : List (List Char) → List Char
  | [] => []
  | [x] => x
  | x :: y :: rest => x ++ sep :: joinSep sep (y :: rest)

theorem goSplitAll_ne_nil (sep : Char) (s : List Char) : goSplitAll sep s ≠ [] := by
  cases s with
  | nil => simp [goSplitAll]
  | cons c rest =>
      by_cases hc : c = sep
      · simp [goSplitAll, hc]
      · simp only [goSplitAll, hc, if_false]
        cases goSplitAll sep rest <;> simp

theorem goSplitAll_eq_splitFirst (sep : Char) : ∀ s,
    goSplitAll sep s = match splitFirst sep s with
      | none => [s]
      | some (pre, post) => pre :: goSplitAll sep post := by
  intro s
  induction s with
  | nil => rfl
  | cons c rest ih =>
      by_cases hc : c = sep
      · simp [goSplitAll, splitFirst, hc]
      · simp only [goSplitAll, splitFirst, hc, if_false]
        cases hsf : splitFirst sep rest with
        | none =>
            rw [hsf] at ih
            simp only [ih]
            rfl
        | some pp =>
            obtain ⟨pre, post⟩ := pp
            rw [hsf] at ih
            simp only [ih, Option.map_some']

theorem joinSep_goSplitAll (sep : Char) : ∀ s, joinSep sep (goSplitAll sep s) = s := by
  intro s
  induction s with
  | nil => rfl
  | cons c rest ih =>
      by_cases hc : c = sep
      · simp only [goSplitAll, hc, if_true]
        obtain ⟨y, ys, hys⟩ : ∃ y ys, goSplitAll sep rest = y :: ys := by
          cases h2 : goSplitAll sep rest with
          | nil => exact absurd h2 (goSplitAll_ne_nil sep rest)
          | cons y ys => exact ⟨y, ys, rfl⟩
        rw [hys, joinSep, ← hys, ih]
        rfl
      · simp only [goSplitAll, hc, if_false]
        cases h2 : goSplitAll sep rest with
        | nil => exact absurd h2 (goSplitAll_ne_nil sep rest)
        | cons p ps =>
            rw [h2] at ih
            cases ps with
            | nil =>
                simp only [joinSep] at ih ⊢
                rw [ih]
            | cons y ys =>
                simp only [joinSep] at ih ⊢
                rw [List.cons_append, ih]

theorem goSplitN_succ_succ (sep : Char) (s : List Char) (n : Nat) :
    goSplitN sep s (n + 2) = match splitFirst sep s with
      | none => [s]
      | some (pre, post) => pre :: goSplitN sep post (n + 1) := rfl

theorem goSplitN_three_eq (sep : Char) (s : List Char) :
    goSplitN sep s 3 =
      match goSplitAll sep s with
      | a :: b :: c :: rest => [a, b, joinSep sep (c :: rest)]
      | other => other := by
  rw [show (3 : Nat) = 1 + 2 from rfl, goSplitN_succ_succ,
    goSplitAll_eq_splitFirst]
  cases hsf1 : splitFirst sep s with
  | none => rfl
  | some pp =>
      obtain ⟨pre, post⟩ := pp
      simp only
      rw [show (1 + 1 : Nat) = 0 + 2 from rfl, goSplitN_succ_succ,
        goSplitAll_eq_splitFirst sep post]
      cases hsf2 : splitFirst sep post with
      | none => rfl
      | some qq =>
          obtain ⟨pre2, post2⟩ := qq
          simp only
          show pre :: pre2 :: goSplitN sep post2 1 = _
          rw [goSplitN]
          obtain ⟨y, ys, hys⟩ : ∃ y ys, goSplitAll sep post2 = y :: ys := by
            cases h2 : goSplitAll sep post2 with
            | nil => exact absurd h2 (goSplitAll_ne_nil sep post2)
            | cons y ys => exact ⟨y, ys, rfl⟩
          rw [hys]
          show _ = [pre, pre2, joinSep sep (y :: ys)]
          rw [← hys, joinSep_goSplitAll]

theorem parseDeploymentKey_unfold_ok (key : String) (decoded : List Char)
    (hd : queryUnescape key.toList = .ok decoded) :
    ParseDeploymentKey key = match goSplitN '/' decoded 3 with
      | [p0, p1, p2] =>
          (match uuidParse p0 with
            | .error e => .error ("invalid project id: " ++ e)
            | .ok pid => .ok (pid, String.mk p1, String.mk p2))
      | _ => .error "invalid deployment key format, expected projectID/platform/channel" := by
  unfold ParseDeploymentKey
  rw [hd]

/-- C6 counterexample: a deployment key whose decoded form has FOUR
`/`-separated components is accepted by `ParseDeploymentKey` (the
surplus is folded into the channel), contradicting the claim that every
input without exactly three components is rejected. -/
theorem parseDeploymentKey_counterexample :
    queryUnescape "01020304-0506-0708-090a-0b0c0d0e0f10/ios/production/extra".toList
        = .ok "01020304-0506-0708-090a-0b0c0d0e0f10/ios/production/extra".toList
    ∧ (goSplitAll '/' "01020304-0506-0708-090a-0b0c0d0e0f10/ios/production/extra".toList).length
        = 4
    ∧ ParseDeploymentKey "01020304-0506-0708-090a-0b0c0d0e0f10/ios/production/extra"
        = .ok (exProjectID, "ios", "production/extra") :=
  ⟨by rfl, by rfl, by rfl⟩

/-- C6 amended: `ParseDeploymentKey` URL-decodes the key and splits on
`/` with a limit of three, so it errors exactly when decoding fails,
the decoded form has FEWER than three components, or the first
component is not a valid UUID; with at least three components it
returns the UUID, the second component, and the remainder joined back
with `/` (a channel may therefore contain slashes). -/
theorem parseDeploymentKey_amended (key : String) :
    (∀ e, queryUnescape key.toList = .error e →
        ParseDeploymentKey key = .error ("failed to decode deployment key: " ++ e))
    ∧ (∀ decoded, queryUnescape key.toList = .ok decoded →
        ((goSplitAll '/' decoded).length < 3 →
            ParseDeploymentKey key
              = .error "invalid deployment key format, expected projectID/platform/channel")
        ∧ (∀ a b c rest, goSplitAll '/' decoded = a :: b :: c :: rest →
            ParseDeploymentKey key
              = match uuidParse a with
                | .error e => .error ("invalid project id: " ++ e)
                | .ok pid => .ok (pid, String.mk b, String.mk (joinSep '/' (c :: rest))))) := by
  refine ⟨?_, ?_⟩
  · intro e he
    unfold ParseDeploymentKey
    rw [he]
  · intro decoded hd
    refine ⟨?_, ?_⟩
    · intro hlen
      rw [parseDeploymentKey_unfold_ok key decoded hd, goSplitN_three_eq]
      cases h1 : goSplitAll '/' decoded with
      | nil => exact absurd h1 (goSplitAll_ne_nil _ _)
      | cons a tl =>
          cases tl with
          | nil => rfl
          | cons b tl2 =>
              cases tl2 with
              | nil => rfl
              | cons c rest =>
                  rw [h1] at hlen
                  simp only [List.length_cons] at hlen
                  omega
    · intro a b c rest hsa
      rw [parseDeploymentKey_unfold_ok key decoded hd, goSplitN_three_eq, hsa]

/-- C6 amended witness: a URL-encoded three-component key decodes and
parses into its components. -/
theorem parseDeploymentKey_amended_witness :
    ParseDeploymentKey "01020304-0506-0708-090a-0b0c0d0e0f10%2Fios%2Fproduction"
      = .ok (exProjectID, "ios", "production") := by
  have h := ((parseDeploymentKey_amended
      "01020304-0506-0708-090a-0b0c0d0e0f10%2Fios%2Fproduction").2
    "01020304-0506-0708-090a-0b0c0d0e0f10/ios/production".toList (by rfl)).2
    "01020304-0506-0708-090a-0b0c0d0e0f10".toList "ios".toList "production".toList []
    (by rfl)
  rw [h]
  rfl

/-! ### The update processor (worker): ProcessUpdate, archiving, DLQ -/

/-- `update.FileMetadataAsset` of `metadata.json`. -/
structure FileMetadataAsset where
  path : String
  ext : String
deriving DecidableEq, Repr

/-- `update.FileMetadata`: per-platform bundle plus assets. -/
structure FileMetadata where
  bundle : String
  assets : List FileMetadataAsset
deriving DecidableEq, Repr

/-- `update.Metadata`: the parsed `metadata.json`, the platform map as
an association list. -/
structure Metadata where
  version : Int
  bundler : String
  fileMetadata : List (String × FileMetadata)
deriving DecidableEq, Repr

/-- The `platforms` package variable: `["android", "ios"]`. -/
def platforms : List String := ["android", "ios"]

/-- Go `path.Ext`: the suffix from the final dot of the final element,
empty when there is none. -/
def goPathExt (s : List Char) : List Char :=
  let r := s.reverse.takeWhile (fun c => c ≠ '/')
  if r.contains '.' then '.' :: (r.takeWhile (fun c => c ≠ '.')).reverse else []

/-- Go `strings.TrimPrefix`. -/
def trimPreChars (pre s : List Char) : List Char :=
  if s.take pre.length = pre then s.drop pre.length else s

/-- The environment the worker runs against: the blob store content,
and the pieces of the Go standard library / blob backend that the
repository only calls (crypto/md5, mime table, fresh uuidv7 per object
key, blob attributes of the freshly written archive), abstracted as
functions. -/
structure ProcEnv where
  blobs : String → Option (List Nat)
  metadataParse : List Nat → Except String Metadata
  md5Hex : List Nat → String
  mimeType : String → String
  freshID : String → UUID
  archiveMd5 : String → String
  archiveSize : String → Int

/-- `update.parseAssetMeta`. -/
structure ParseAssetMeta where
  extension : String
  isLaunchAsset : Bool
  contentType : String
  platform : String
deriving DecidableEq, Repr

/-- `assetParser.parse`: read the blob at the asset key, hash its
bytes, and build a `CreateUpdateAssetsParams` row. -/
def parseOne (env : ProcEnv) (update : Update) (filePath : String) (m : ParseAssetMeta) :
    Except String UpdateAsset :=
  let objectKey := AssetObjectKey update.projectID update.id filePath
  match env.blobs objectKey with
  | none => .error "failed to read bundle file"
  | some bytes =>
      .ok { id := env.freshID objectKey, updateID := update.id,
            storageObjectPath := objectKey,
            contentMd5 := env.md5Hex bytes,
            contentSha256 := String.mk (hexOfBytes (sha256Bytes bytes)),
            contentLength := (bytes.length : Int),
            extension := m.extension, isLaunchAsset := m.isLaunchAsset,
            isArchive := false, platform := m.platform, contentType := m.contentType }

/-- The per-platform body of `assetParser.parseAssets`: the bundle
first (`.bundle` default extension; a bundle failure skips the
platform's assets via `continue`), then each declared asset, collecting
errors while continuing. -/
def parsePlatformAssets (env : ProcEnv) (update : Update) (platform : String)
    (pm : FileMetadata) : List UpdateAsset × List String :=
  let bext := let e := goPathExt pm.bundle.toList
    if e = [] then ".bundle" else String.mk e
  match parseOne env update pm.bundle
      ⟨bext, true, "application/javascript", platform⟩ with
  | .error e => ([], ["failed to process bundle: " ++ e])
  | .ok basset =>
      let rest := pm.assets.foldl (fun acc am =>
        match parseOne env update am.path ⟨am.ext, false, env.mimeType am.ext, platform⟩ with
        | .error e => (acc.1, acc.2 ++ ["failed to process asset: " ++ e])
        | .ok a => (acc.1 ++ [a], acc.2)) ([], [])
      (basset :: rest.1, rest.2)

/-- `assetParser.parseAssets`: android then ios, skipping platforms
absent from `fileMetadata`. -/
def parseAssets (env : ProcEnv) (update : Update) (meta : Metadata) :
    List UpdateAsset × List String :=
  platforms.foldl (fun acc platform =>
    match meta.fileMetadata.lookup platform with
    | none => acc
    | some pm =>
        let r := parsePlatformAssets env update platform pm
        (acc.1 ++ r.1, acc.2 ++ r.2)) ([], [])

/-- The SQL query `GetUpdateAssetsByPlatform`: all non-archive rows of
the update for the platform (launch asset included). -/
def getUpdateAssetsByPlatform (table : List UpdateAsset) (updateID : UUID) (platform : String) :
    List UpdateAsset :=
  table.filter (fun a =>
    decide (a.updateID = updateID) && decide (a.platform = platform) && !a.isArchive)

/-- The name of an asset inside the archive zip: the storage path tail
with the platform directory stripped. -/
def zipEntryName (platform : String) (a : UpdateAsset) : String :=
  String.mk (trimPreChars (platform ++ "/").toList
    (AssetObjectKeySegments a.storageObjectPath).2.2.toList)

/-- The streaming loop of `archiver.archiveForPlatform`: one zip entry
per asset, aborting on a blob read failure. -/
def zipEntriesLoop (env : ProcEnv) (platform : String) : List UpdateAsset → Option (List String)
  | [] => some []
  | a :: rest =>
      match env.blobs a.storageObjectPath with
      | none => none
      | some _ => (zipEntriesLoop env platform rest).map (fun es => zipEntryName platform a :: es)

/-- `archiver.archiveForPlatform`: stream the platform's non-archive
assets into a zip at the archive key, then build the archive row with
the blob attributes and the CodePush package hash.  Returns the zip
entry names together with the row. -/
def archiveForPlatform (env : ProcEnv) (update : Update) (table : List UpdateAsset)
    (platform : String) : Except String (List String × UpdateAsset) :=
  let objectKey := ArchiveObjectKey update.projectID update.id platform
  let assets := getUpdateAssetsByPlatform table update.id platform
  if assets = [] then .error ("no assets found for platform " ++ platform)
  else
    match zipEntriesLoop env platform assets with
    | none => .error "failed to read asset from storage"
    | some entries =>
        .ok (entries,
          { id := env.freshID objectKey, updateID := update.id,
            storageObjectPath := objectKey,
            contentType := "application/zip", extension := ".zip",
            contentMd5 := env.archiveMd5 objectKey,
            contentSha256 := calculateSHA256ForArchive assets,
            isLaunchAsset := false, isArchive := true, platform := platform,
            contentLength := env.archiveSize objectKey })

/-- The archive phase of `Processor.ProcessUpdate`: for each platform
present in the metadata, archive iff the protocol is CodePush and the
platform declares at least one (non-bundle) asset. -/
def archivePhase (env : ProcEnv) (protocol : UpdateProtocol) (update : Update)
    (table : List UpdateAsset) (meta : Metadata) : List String → Except String (List UpdateAsset)
  | [] => .ok []
  | p :: rest =>
      match meta.fileMetadata.lookup p with
      | none => archivePhase env protocol update table meta rest
      | some pm =>
          if protocol = .codepush ∧ pm.assets ≠ [] then
            match archiveForPlatform env update table p with
            | .error e => .error ("failed to archive update: " ++ e)
            | .ok (_, asset) =>
                (archivePhase env protocol update table meta rest).map (fun l => asset :: l)
          else archivePhase env protocol update table meta rest

/-- Worker-visible state: the update row and its `update_assets` rows. -/
structure WorkerState where
  update : Update
  assets : List UpdateAsset
deriving Repr

/-- Result of `Processor.ProcessUpdate`. -/
inductive ProcResult where
  | ok
  | errNotPending
  | errOther (msg : String)
deriving DecidableEq, Repr

/-- `Processor.ProcessUpdate`: squelch when not `pending`; set
`processing`; read and parse `metadata.json`; ingest assets (persisting
parsed rows even when some failed, then failing); build CodePush
archives; set `published`. -/
def ProcessUpdate (env : ProcEnv) (protocol : UpdateProtocol) (st : WorkerState) :
    ProcResult × WorkerState :=
  if st.update.status ≠ .pending then (.errNotPending, st)
  else
    let upd := { st.update with status := UpdateStatus.processing }
    let st1 : WorkerState := { st with update := upd }
    match env.blobs (AssetObjectKey upd.projectID upd.id "metadata.json") with
    | none => (.errOther "failed to read metadata.json", st1)
    | some bytes =>
        match env.metadataParse bytes with
        | .error e => (.errOther ("failed to parse metadata: " ++ e), st1)
        | .ok meta =>
            let parsed := parseAssets env upd meta
            let st2 : WorkerState := { st1 with assets := st1.assets ++ parsed.1 }
            if parsed.2 ≠ [] then (.errOther "failed to parse some assets", st2)
            else
              match archivePhase env protocol upd st2.assets meta platforms with
              | .error e => (.errOther e, st2)
              | .ok archived =>
                  (.ok, { update := { upd with status := UpdateStatus.published },
                          assets := st2.assets ++ archived })

/-- The DLQ handler installed by `newMaxDeliveriesHandler`: on a
max-deliveries advisory it sets the update's status to `failed`. -/
def maxDeliveriesHandler (st : WorkerState) : WorkerState :=
  { st with update := { st.update with status := UpdateStatus.failed } }

theorem processUpdate_pending_shape (env : ProcEnv) (protocol : UpdateProtocol)
    (st : WorkerState) (hp : st.update.status = .pending) :
    (ProcessUpdate env protocol st).1 ≠ .errNotPending
    ∧ ((ProcessUpdate env protocol st).1 = .ok →
        (ProcessUpdate env protocol st).2.update.status = .published) := by
  unfold ProcessUpdate
  rw [if_neg (by simp [hp])]
  dsimp only
  split
  · simp
  · split
    · simp
    · split
      · simp
      · split <;> simp

/-- C3: `ProcessUpdate` fails with `ErrUpdateNotPending` exactly when
the update's status is not `pending` (leaving the state untouched in
that case); a successful run ends with status `published`; and the
dead-letter handler sets status `failed` when delivery attempts are
exhausted. -/
theorem processUpdate_lifecycle (env : ProcEnv) (protocol : UpdateProtocol)
    (st : WorkerState) :
    ((ProcessUpdate env protocol st).1 = .errNotPending ↔ st.update.status ≠ .pending)
    ∧ (st.update.status ≠ .pending → (ProcessUpdate env protocol st).2 = st)
    ∧ ((ProcessUpdate env protocol st).1 = .ok →
        (ProcessUpdate env protocol st).2.update.status = .published)
    ∧ (maxDeliveriesHandler st).update.status = .failed := by
  by_cases hp : st.update.status = .pending
  · obtain ⟨hne, hok⟩ := processUpdate_pending_shape env protocol st hp
    exact ⟨⟨fun h => absurd h hne, fun h => absurd hp h⟩,
      fun h => absurd hp h, hok, rfl⟩
  · have h1 : ProcessUpdate env protocol st = (.errNotPending, st) := by
      unfold ProcessUpdate
      rw [if_pos hp]
    refine ⟨⟨fun _ => hp, fun _ => by rw [h1]⟩, fun _ => by rw [h1], ?_, rfl⟩
    intro hok
    rw [h1] at hok
    simp at hok

def exMetaBytes : List Nat := [123, 125]

def exMeta : Metadata :=
  { version := 0, bundler := "metro",
    fileMetadata := [("ios", { bundle := "ios/main.jsbundle", assets := [] })] }

def exEnv : ProcEnv :=
  { blobs := fun k =>
      if k = AssetObjectKey exProjectID exUpdateID "metadata.json" then some exMetaBytes
      else if k = AssetObjectKey exProjectID exUpdateID "ios/main.jsbundle" then some [1, 2, 3]
      else none,
    metadataParse := fun bs => if bs = exMetaBytes then .ok exMeta else .error "failed to parse",
    md5Hex := fun _ => "0123456789abcdef0123456789abcdef",
    mimeType := fun _ => "application/octet-stream",
    freshID := fun _ => exUpdateID,
    archiveMd5 := fun _ => "0123456789abcdef0123456789abcdef",
    archiveSize := fun _ => 0 }

def exStPending : WorkerState :=
  { update := { id := exUpdateID, projectID := exProjectID, runtimeVersion := "1.0.0",
                channel := "production", message := none, status := .pending, createdAt := 0 },
    assets := [] }

def exStPublished : WorkerState :=
  { update := exRowPub.update, assets := [] }

/-- C3 witness: a concrete pending update processes to `published`, a
concrete published one is squelched with `ErrUpdateNotPending`, and the
dead-letter handler flips to `failed`. -/
theorem processUpdate_lifecycle_witness :
    (ProcessUpdate exEnv .expo exStPending).2.update.status = .published
    ∧ (ProcessUpdate exEnv .expo exStPublished).1 = .errNotPending
    ∧ (maxDeliveriesHandler exStPending).update.status = .failed :=
  ⟨(processUpdate_lifecycle exEnv .expo exStPending).2.2.1 (by rfl),
   (processUpdate_lifecycle exEnv .expo exStPublished).1.mpr (by decide),
   (processUpdate_lifecycle exEnv .expo exStPending).2.2.2⟩

/-! ### C5: contents of the per-platform CodePush archive -/

def exArchEnv : ProcEnv :=
  { exEnv with blobs := fun k =>
      if k = exAssetA.storageObjectPath ∨ k = exAssetB.storageObjectPath then some [0]
      else none }

/-- C5 counterexample: the archive query filters only `is_archive =
false`, so the zip of a platform with a launch bundle and one regular
asset has TWO entries — the launch bundle (`main.jsbundle`) included —
while the claim's "exactly the non-launch assets" predicts one. -/
theorem archiveForPlatform_claim_counterexample :
    Except.map Prod.fst (archiveForPlatform exArchEnv exRowPub.update [exAssetB, exAssetA] "ios")
        = .ok ["main.jsbundle", "assets/logo.png"]
    ∧ ([exAssetB, exAssetA].filter (fun a =>
          decide (a.updateID = exRowPub.update.id) && decide (a.platform = "ios")
            && !a.isLaunchAsset && !a.isArchive)).map (zipEntryName "ios")
        = ["assets/logo.png"]
    ∧ exAssetB.isLaunchAsset = true
    ∧ (["main.jsbundle", "assets/logo.png"] : List String) ≠ ["assets/logo.png"] :=
  ⟨by rfl, by rfl, by rfl, by decide⟩

/-- C5 amended: for a platform with at least one non-archive asset row
(all readable from the blob store), the zip built by
`archiveForPlatform` has exactly one entry per NON-ARCHIVE asset of the
update and platform — launch bundle included — named by the storage
path tail with the platform prefix stripped, and nothing else. -/
theorem archiveForPlatform_amended (env : ProcEnv) (upd : Update)
    (table : List UpdateAsset) (p : String)
    (hne : getUpdateAssetsByPlatform table upd.id p ≠ [])
    (hblobs : ∀ a ∈ getUpdateAssetsByPlatform table upd.id p,
      (env.blobs a.storageObjectPath).isSome) :
    Except.map Prod.fst (archiveForPlatform env upd table p)
      = .ok ((getUpdateAssetsByPlatform table upd.id p).map (zipEntryName p)) := by
  have hloop : ∀ l : List UpdateAsset,
      (∀ a ∈ l, (env.blobs a.storageObjectPath).isSome) →
      zipEntriesLoop env p l = some (l.map (zipEntryName p)) := by
    intro l
    induction l with
    | nil => intro _; rfl
    | cons a rest ih =>
        intro hall
        obtain ⟨bs, hbs⟩ := Option.isSome_iff_exists.mp (hall a (List.mem_cons_self a rest))
        unfold zipEntriesLoop
        rw [hbs, ih (fun x hx => hall x (List.mem_cons_of_mem a hx))]
        rfl
  unfold archiveForPlatform
  rw [if_neg hne, hloop _ hblobs]
  rfl

/-- C5 amended witness: at the concrete two-asset table both entries
appear, launch bundle included. -/
theorem archiveForPlatform_amended_witness :
    Except.map Prod.fst (archiveForPlatform exArchEnv exRowPub.update [exAssetB, exAssetA] "ios")
      = .ok ((getUpdateAssetsByPlatform [exAssetB, exAssetA] exRowPub.update.id "ios").map
          (zipEntryName "ios")) :=
  archiveForPlatform_amended exArchEnv exRowPub.update [exAssetB, exAssetA] "ios"
    (by decide) (by decide)
